import Mathlib

/- A shallow embedding of experiments/baselines.py: the model-selection
harness (Baseline.select and the facade methods evaluate, get_covariance,
timeit), the per-segment estimator adapters (PCA, SparsePCA,
FactorAnalysis, GraphLasso), the TCorex adapter, and the external-process
adapters (QUIC, BigQUIC) together with BigQUIC's plain-text output parser.
Validation scores are floats in the source; a score is modelled as
Option rational, where none stands for NaN and any IEEE comparison that
involves NaN is false. -/

namespace Baselines

/-- Scores returned by utils.calculate_nll_score: none models NaN. -/
abbrev Score := Option ℚ

/-- np.isnan on a score. -/
def isnan (s : Score) : Bool := s.isNone

/-- IEEE strict less-than on scores: false whenever either side is NaN. -/
def ltScore : Score → Score → Bool
  | some a, some b => decide (a < b)
  | _, _ => false

/-- One entry of the caller's params mapping, classified exactly as
Baseline.select classifies it: a list value becomes one search axis, a
dict value is handled by the nested branch, anything else is a constant. -/
inductive PEntry (V : Type) where
  | const (v : V)
  | axis (vs : List V)
  | nested (sub : List (String × List V))
deriving DecidableEq

/-- The params argument of Baseline.select: a mapping from hyperparameter
name to entry, in insertion order. -/
abbrev ParamSpec (V : Type) := List (String × PEntry V)

/-- A Python dict with string keys, modelled as an association list in
insertion order with unique keys maintained by dset. -/
abbrev Dict (V : Type) := List (String × V)

/-- Dict lookup (d[k], as an Option). -/
def dget {V : Type} : Dict V → String → Option V
  | [], _ => none
  | (k, v) :: rest, key => if k = key then some v else dget rest key

/-- Dict assignment d[k] = v: replaces in place if the key is present,
appends otherwise (Python dict insertion-order semantics). -/
def dset {V : Type} : Dict V → String → V → Dict V
  | [], key, val => [(key, val)]
  | (k, v) :: rest, key, val =>
      if k = key then (k, val) :: rest else (k, v) :: dset rest key val

/-- The keys of a dict, in order. -/
def keys {V : Type} (d : Dict V) : List String := d.map (·.1)

/-- dict(pairs): build a dict from a list of pairs, later pairs winning. -/
def dictOfPairs {V : Type} (ps : List (String × V)) : Dict V :=
  ps.foldl (fun d kv => dset d kv.1 kv.2) []

/-- list(x for k, vs: for x in vs): the concatenation of the (inner key,
value) pairs of a dict-valued entry, mirroring the arr += ... loop in
Baseline.select. Values are wrapped in some; the dummy axis uses none. -/
def concatPairs {V : Type} : List (String × List V) → List (String × Option V)
  | [] => []
  | (k, vs) :: rest => vs.map (fun x => (k, some x)) ++ concatPairs rest

/-- The search axis contributed by one params entry, if any: a list entry
yields its (key, value) pairs, a dict entry yields the concatenation of
its inner (key, value) pairs as ONE axis, a constant yields no axis. -/
def axisOf {V : Type} : String × PEntry V → Option (List (String × Option V))
  | (k, .axis vs) => some (vs.map fun x => (k, some x))
  | (_, .nested sub) => some (concatPairs sub)
  | (_, .const _) => none

/-- search_params as built by the classification loop in Baseline.select. -/
def searchParams {V : Type} (ps : ParamSpec V) : List (List (String × Option V)) :=
  ps.filterMap axisOf

/-- const_params as built by the classification loop in Baseline.select
(const_params[k] = v for each non-list, non-dict entry). -/
def constParams {V : Type} (ps : ParamSpec V) : Dict V :=
  ps.foldl (fun d ke =>
    match ke.2 with
    | .const v => dset d ke.1 v
    | _ => d) []

/-- search_params after the empty-grid guard: if no axis exists, a
single-point dummy axis is substituted. -/
def searchParamsFull {V : Type} (ps : ParamSpec V) : List (List (String × Option V)) :=
  if (searchParams ps).isEmpty then [[("__dummy__", (none : Option V))]] else searchParams ps

/-- Helper for the itertools.product order: prefix each tail list with
each element of the head axis, head axis varying slowest. -/
def prodAux {α : Type} : List α → List (List α) → List (List α)
  | [], _ => []
  | x :: xs, tails => tails.map (x :: ·) ++ prodAux xs tails

/-- itertools.product over a list of axes. -/
def listProd {α : Type} : List (List α) → List (List α)
  | [] => [[]]
  | xs :: rest => prodAux xs (listProd rest)

/-- grid = list(itertools.product(*search_params)) in Baseline.select. -/
def grid {V : Type} (ps : ParamSpec V) : List (List (String × Option V)) :=
  listProd (searchParamsFull ps)

/-- cur_params = dict(cur_params) followed by cur_params[k] = v for every
constant entry: the merge of one grid point with the constants, the
constants written last. -/
def mergeParams {V : Type} (cur : List (String × Option V)) (consts : Dict V) :
    Dict (Option V) :=
  consts.foldl (fun d kv => dset d kv.1 (some kv.2)) (dictOfPairs cur)

/-- The running state of the selection loop in Baseline.select: the
retained best score, params, covariances and model, plus a counter of how
many times _train has been invoked. best_score starts at 1e18 and
best_params at None. -/
structure SelState (V C M : Type) where
  best_score : Score
  best_params : Option (Dict (Option V))
  best_covs : Option C
  best_method : Option M
  calls : ℕ
deriving DecidableEq

/-- The state before the loop of Baseline.select runs. -/
def selectInit {V C M : Type} : SelState V C M :=
  ⟨some ((10 : ℚ) ^ 18), none, none, none, 0⟩

/-- One iteration of the selection loop: merge the grid point with the
constants, call _train (modelled by the train argument), score the
covariances on validation data (score argument, NaN for a None result),
and replace the best exactly when best_params is None or the score is not
NaN and is strictly below the best score. -/
def selectStep {V C M : Type} (train : Dict (Option V) → Option C × Option M)
    (score : Option C → Score) (consts : Dict V)
    (st : SelState V C M) (cur : List (String × Option V)) : SelState V C M :=
  let cur_params := mergeParams cur consts
  let tr := train cur_params
  let cur_score := score tr.1
  if st.best_params.isNone || (!isnan cur_score && ltScore cur_score st.best_score) then
    ⟨cur_score, some cur_params, tr.1, tr.2, st.calls + 1⟩
  else
    { st with calls := st.calls + 1 }

/-- The whole selection loop of Baseline.select over the grid. -/
def selectRun {V C M : Type} (train : Dict (Option V) → Option C × Option M)
    (score : Option C → Score) (ps : ParamSpec V) : SelState V C M :=
  (grid ps).foldl (selectStep train score (constParams ps)) selectInit

/-- The mutable attributes of a Baseline instance: _trained, _val_score,
_params, _covs, _method. -/
structure BaselineState (V C M : Type) where
  trained : Bool
  val_score : Option Score
  params : Option (Dict (Option V))
  covs : Option C
  method : Option M
deriving DecidableEq

/-- Baseline.__init__: untrained, every retained field None. -/
def Baseline.init {V C M : Type} : BaselineState V C M :=
  ⟨false, none, none, none, none⟩

/-- Baseline.select: run the grid search, store the retained best into the
instance, mark it trained, and return the SelectionResult tuple. -/
def Baseline.select {V C M : Type} (train : Dict (Option V) → Option C × Option M)
    (score : Option C → Score) (ps : ParamSpec V) (st : BaselineState V C M) :
    BaselineState V C M ×
      (Score × Option (Dict (Option V)) × Option C × Option M) :=
  let r : SelState V C M := selectRun train score ps
  (⟨true, some r.best_score, r.best_params, r.best_covs, r.best_method⟩,
   (r.best_score, r.best_params, r.best_covs, r.best_method))

/-- Baseline.evaluate: assert self._trained, then score the stored
covariances on the test data (score argument closes over test_data); the
assert is modelled as an error result. -/
def Baseline.evaluate {V C M : Type} (score : Option C → Score)
    (st : BaselineState V C M) : Except Unit Score :=
  if st.trained then .ok (score st.covs) else .error ()

/-- Baseline.get_covariance: assert self._trained, then return the stored
covariances. -/
def Baseline.get_covariance {V C M : Type} (st : BaselineState V C M) :
    Except Unit (Option C) :=
  if st.trained then .ok st.covs else .error ()

/-- GroundTruth.__init__: stores the supplied covariances and marks the
instance trained from construction; the _score attribute it also computes
is never read by the modelled interface and is not stored here. -/
def GroundTruth.init {V C M : Type} (covs : C) : BaselineState V C M :=
  ⟨true, none, none, some covs, none⟩

/-- GroundTruth._train: returns the stored covariances and a None model,
ignoring both the train_data and the params arguments. -/
def GroundTruth.train {V C M τ : Type} (st : BaselineState V C M)
    (train_data : τ) (params : Dict (Option V)) : Option C × Option M :=
  (st.covs, none)

/-- The try/except body shared by the per-segment in-process adapters:
covs = []; for x in train_data: covs.append(fit(x)); any exception from a
fit resets covs to None. The fit argument abstracts the library estimator
constructed from the hyperparameters (e.g. sk_dec.PCA(...).fit followed by
get_covariance). -/
def tryFitLoop {σ ε κ : Type} (fit : σ → Except ε κ) : List σ → Option (List κ)
  | [] => some []
  | x :: xs =>
    match fit x with
    | .error _ => none
    | .ok c =>
      match tryFitLoop fit xs with
      | none => none
      | some cs => some (c :: cs)

/-- PCA._train: per-segment fit inside one try/except, (None, None) on
failure, always a None model. -/
def PCA.train {σ ε κ : Type} (fit : σ → Except ε κ) (train_data : List σ) :
    Option (List κ) × Option Unit :=
  (tryFitLoop fit train_data, none)

/-- SparsePCA._train: same try/except shape as PCA._train, with fit
abstracting the SparsePCA estimator and its covariance reconstruction. -/
def SparsePCA.train {σ ε κ : Type} (fit : σ → Except ε κ) (train_data : List σ) :
    Option (List κ) × Option Unit :=
  (tryFitLoop fit train_data, none)

/-- FactorAnalysis._train: same try/except shape as PCA._train. -/
def FactorAnalysis.train {σ ε κ : Type} (fit : σ → Except ε κ) (train_data : List σ) :
    Option (List κ) × Option Unit :=
  (tryFitLoop fit train_data, none)

/-- GraphLasso._train: same try/except shape as PCA._train. -/
def GraphLasso.train {σ ε κ : Type} (fit : σ → Except ε κ) (train_data : List σ) :
    Option (List κ) × Option Unit :=
  (tryFitLoop fit train_data, none)

/-- TCorex._train's effect on the caller-supplied params dict: the
statement params['nt'] = len(train_data) writes into the very mapping the
caller passed (ntVal models len(train_data)); the fitted model and
covariances come from the external tcorex library and are not needed to
state this effect. -/
def TCorex.train {V : Type} (ntVal : V) (params : Dict V) : Dict V :=
  dset params "nt" ntVal

/-- TCorex.timeit's effect on the caller-supplied params dict: identical
write params['nt'] = len(train_data) before constructing the model. -/
def TCorex.timeit {V : Type} (ntVal : V) (params : Dict V) : Dict V :=
  dset params "nt" ntVal

/-- The filesystem state an external-process _train call manipulates: the
process working directory (a path, as a segment list) and whether each of
the three run-id-scoped temporary files currently exists. The run id is
freshly drawn, so all three start absent. -/
structure FSState where
  cwd : List String
  hasIn : Bool
  hasOut : Bool
  hasScript : Bool
deriving DecidableEq

/-- os.chdir with a relative path going down: append the segments. -/
def chdirDown (st : FSState) (path : List String) : FSState :=
  { st with cwd := st.cwd ++ path }

/-- os.chdir('../..' ...): drop the last n path segments. -/
def chdirUp (st : FSState) (n : ℕ) : FSState :=
  { st with cwd := st.cwd.take (st.cwd.length - n) }

/-- os.remove of the run-id input file: raises if it does not exist. -/
def removeIn (st : FSState) : Except FSState FSState :=
  if st.hasIn then .ok { st with hasIn := false } else .error st

/-- os.remove of the run-id output file: raises if it does not exist. -/
def removeOut (st : FSState) : Except FSState FSState :=
  if st.hasOut then .ok { st with hasOut := false } else .error st

/-- os.remove of the run-id script file: raises if it does not exist. -/
def removeScript (st : FSState) : Except FSState FSState :=
  if st.hasScript then .ok { st with hasScript := false } else .error st

/-- One iteration of the per-segment loop in QUIC._train: savemat writes
the .in.mat file, octave runs on the script, loadmat parses the .out.mat
file. The oracle loadOk says whether loadmat succeeds for this segment; a
successful load implies the output file exists, a failing one raises at
the state reached so far. -/
def QUIC.segStep (st : FSState) (loadOk : Bool) : Except FSState FSState :=
  let st := { st with hasIn := true }
  if loadOk then .ok { st with hasOut := true } else .error st

/-- The per-segment loop of QUIC._train. -/
def QUIC.segLoop : FSState → List Bool → Except FSState FSState
  | st, [] => .ok st
  | st, b :: bs =>
    match QUIC.segStep st b with
    | .error e => .error e
    | .ok st' => QUIC.segLoop st' bs

/-- The cleanup tail both external adapters end with on the normal path:
os.remove of the input, output and script files (each raising if its file
is absent) followed by os.chdir back up n levels. -/
def cleanupPhase (st : FSState) (n : ℕ) : Except FSState FSState :=
  match removeIn st with
  | .error e => .error e
  | .ok st2 =>
    match removeOut st2 with
    | .error e => .error e
    | .ok st3 =>
      match removeScript st3 with
      | .error e => .error e
      | .ok st4 => .ok (chdirUp st4 n)

/-- QUIC._train as it acts on the filesystem: chdir into the solver
directory, write the .m script, run the per-segment loop, then delete the
three run-id files and chdir three levels back up. An exception from any
segment propagates with no cleanup. -/
def QUIC.train (cwd0 : List String) (segs : List Bool) : Except FSState FSState :=
  let st : FSState := ⟨cwd0, false, false, false⟩
  let st := chdirDown st ["experiments", "methods", "QUIC"]
  let st := { st with hasScript := true }
  match QUIC.segLoop st segs with
  | .error e => .error e
  | .ok st1 => cleanupPhase st1 3

/-- One iteration of the per-segment loop in BigQUIC._train: the .in.txt
and the .sh files are written inside the loop, bash runs the solver, then
the .out.txt file is opened, its header matched, p asserted equal to the
variable count and the nnz entry lines read. The oracle parseOk says
whether that whole parse block succeeds. -/
def BigQUIC.segStep (st : FSState) (parseOk : Bool) : Except FSState FSState :=
  let st := { st with hasIn := true }
  let st := { st with hasScript := true }
  if parseOk then .ok { st with hasOut := true } else .error st

/-- The per-segment loop of BigQUIC._train. -/
def BigQUIC.segLoop : FSState → List Bool → Except FSState FSState
  | st, [] => .ok st
  | st, b :: bs =>
    match BigQUIC.segStep st b with
    | .error e => .error e
    | .ok st' => BigQUIC.segLoop st' bs

/-- BigQUIC._train as it acts on the filesystem: chdir four levels down
into the solver directory, run the per-segment loop, then delete the three
run-id files and chdir four levels back up. An exception from any segment
propagates with no cleanup. -/
def BigQUIC.train (cwd0 : List String) (segs : List Bool) : Except FSState FSState :=
  let st : FSState := ⟨cwd0, false, false, false⟩
  let st := chdirDown st ["experiments", "methods", "BigQUIC", "bigquic"]
  match BigQUIC.segLoop st segs with
  | .error e => .error e
  | .ok st1 => cleanupPhase st1 4

/-- A parsed (row, col, value) line of the BigQUIC output format; row and
col are kept as integers because the file is 1-indexed. -/
abbrev Triple := ℤ × ℤ × ℚ

/-- str.split(' ') on a line of characters, keeping empty fields. -/
def splitSp : List Char → List (List Char)
  | [] => [[]]
  | c :: cs =>
    if c = ' ' then [] :: splitSp cs
    else
      match splitSp cs with
      | [] => [[c]]
      | t :: ts => (c :: t) :: ts

/-- The numeric value of a digit run. -/
def digitsVal (ds : List Char) : ℕ :=
  ds.foldl (fun a c => 10 * a + (c.toNat - 48)) 0

/-- Split off the maximal leading digit run. -/
def takeDigits : List Char → List Char × List Char
  | [] => ([], [])
  | c :: cs =>
    if c.isDigit then
      let (d, r) := takeDigits cs
      (c :: d, r)
    else ([], c :: cs)

/-- Match a literal prefix and return the rest of the input. -/
def matchLit : List Char → List Char → Option (List Char)
  | [], s => some s
  | _ :: _, [] => none
  | l :: ls, c :: cs => if c = l then matchLit ls cs else none

/-- Try the regex pattern of BigQUIC._train at the current position:
literal p-colon-space, a digit run, the literal comma nnz separator, and a
second digit run. -/
def headerAt (s : List Char) : Option (ℕ × ℕ) :=
  match matchLit "p: ".toList s with
  | none => none
  | some s1 =>
    match takeDigits s1 with
    | ([], _) => none
    | (d1, s2) =>
      match matchLit ", nnz: ".toList s2 with
      | none => none
      | some s3 =>
        match takeDigits s3 with
        | ([], _) => none
        | (d2, _) => some (digitsVal d1, digitsVal d2)

/-- re.search for the header pattern: try every start position from the
left, greedy digit runs (faithful because a digit run is followed by a
non-digit literal in the pattern). -/
def headerSearch : List Char → Option (ℕ × ℕ)
  | [] => none
  | c :: rest =>
    match headerAt (c :: rest) with
    | some r => some r
    | none => headerSearch rest

/-- int(s) for the row/col fields: strip surrounding whitespace, an
optional sign, then a nonempty all-digit body. -/
def pyInt (s : List Char) : Option ℤ :=
  let t := (((s.dropWhile (·.isWhitespace)).reverse.dropWhile
    (·.isWhitespace)).reverse)
  match t with
  | '-' :: ds =>
    if ds ≠ [] ∧ ds.all (·.isDigit) then some (-(digitsVal ds : ℤ)) else none
  | '+' :: ds =>
    if ds ≠ [] ∧ ds.all (·.isDigit) then some (digitsVal ds : ℤ) else none
  | ds =>
    if ds ≠ [] ∧ ds.all (·.isDigit) then some (digitsVal ds : ℤ) else none

/-- One entry line of BigQUIC._train: mas = line.split(' '); row and col
from int over the first two fields, the value from float over the third
(float parsing delegated to the floatOf oracle); any missing field or
failed conversion raises. -/
def parseTriple (floatOf : List Char → Option ℚ) (line : List Char) :
    Option Triple :=
  match splitSp line with
  | a :: b :: c :: _ =>
    match pyInt a, pyInt b, floatOf c with
    | some r, some co, some v => some (r, co, v)
    | _, _, _ => none
  | _ => none

/-- f.readline() for line number i of a file given as a list of
newline-stripped lines: past the end it returns the empty string. -/
def readline (lines : List (List Char)) (i : ℕ) : List Char :=
  lines.getD i []

/-- The loop for i in range(non_zero) of BigQUIC._train: read and parse
exactly n entry lines starting at line index i. -/
def readEntries (floatOf : List Char → Option ℚ) (lines : List (List Char)) :
    ℕ → ℕ → Option (List Triple)
  | _, 0 => some []
  | i, Nat.succ n =>
    match parseTriple floatOf (readline lines i) with
    | none => none
    | some t =>
      match readEntries floatOf lines (i + 1) n with
      | none => none
      | some ts => some (t :: ts)

/-- numpy assignment precision_mat[row-1, col-1] = value on a matrix
modelled as a function of integer indices. -/
def matSet (m : ℤ → ℤ → ℚ) (r c : ℤ) (v : ℚ) : ℤ → ℤ → ℚ :=
  fun i j => if i = r ∧ j = c then v else m i j

/-- The dense precision matrix assembled from the parsed entry lines,
starting from np.zeros: each (row, col, value) is written at the
0-indexed position (row-1, col-1), every position never written stays 0. -/
def assemble (ts : List Triple) : ℤ → ℤ → ℚ :=
  ts.foldl (fun m t => matSet m (t.1 - 1) (t.2.1 - 1) t.2.2) (fun _ _ => 0)

/-- The output-parsing block of BigQUIC._train for one segment: search the
first line for the header pattern, take p and nnz from it, assert p equals
the expected variable count nv, then read exactly nnz entry lines. A
failed search (None.group raises), a failed assert or a bad entry line all
raise, modelled as none. -/
def BigQUIC.parseOut (floatOf : List Char → Option ℚ) (nv : ℕ)
    (lines : List (List Char)) : Option (ℕ × ℕ × List Triple) :=
  match headerSearch (readline lines 0) with
  | none => none
  | some (p, nnz) =>
    if p = nv then
      match readEntries floatOf lines 1 nnz with
      | none => none
      | some ts => some (p, nnz, ts)
    else none

/-- The size of the axis a params entry contributes to the grid, if any:
a list entry contributes its length, a dict entry contributes the SUM of
its inner list lengths (its pairs are concatenated into one axis), a
constant contributes no axis. -/
def axisSize {V : Type} : PEntry V → Option ℕ
  | .axis vs => some vs.length
  | .nested sub => some ((sub.map fun kv => kv.2.length).sum)
  | .const _ => none

/-- The number of grid points Baseline.select enumerates: 1 when there is
no axis (the dummy axis), otherwise the product of the axis sizes. -/
def gridSize {V : Type} (ps : ParamSpec V) : ℕ :=
  if (ps.filterMap fun ke => axisSize ke.2).isEmpty then 1
  else (ps.filterMap fun ke => axisSize ke.2).prod

/-- Modelled from the spec: the grid size the specification claims, where
a dict-valued entry expands into one independent axis per inner key, so
that its contribution to the product is the PRODUCT of its inner list
lengths rather than their sum. -/
def specAxisSize {V : Type} : PEntry V → Option ℕ
  | .axis vs => some vs.length
  | .nested sub => some ((sub.map fun kv => kv.2.length).prod)
  | .const _ => none

/-- Modelled from the spec: total number of grid points claimed by the
specification, the product of the sizes of all list/dict-expanded axes. -/
def specGridSize {V : Type} (ps : ParamSpec V) : ℕ :=
  (ps.filterMap fun ke => specAxisSize ke.2).prod

/-- Whether a params entry is a constant (neither list- nor dict-valued). -/
def isConstEntry {V : Type} : PEntry V → Bool
  | .const _ => true
  | _ => false

/-- A one-axis ParamSpec with five candidate values, used to realize the
score sequence NaN, 5.0, 3.0, NaN, 4.0 of the tie-break scenario. -/
def C1ps : ParamSpec ℤ := [("k", PEntry.axis [0, 1, 2, 3, 4])]

/-- A _train oracle for the tie-break scenario: the covariance result just
records which candidate value was trained. -/
def C1train : Dict (Option ℤ) → Option ℤ × Option Unit :=
  fun d => ((dget d "k").bind id, none)

/-- A validation-score oracle realizing the scores NaN, 5.0, 3.0, NaN, 4.0
for the five candidates of C1ps, NaN for a missing result. -/
def C1score : Option ℤ → Score
  | some 1 => some 5
  | some 2 => some 3
  | some 4 => some 4
  | _ => none

/-- A fit oracle that fails on segment 1 and succeeds elsewhere, used to
witness the per-segment failure behaviour. -/
def fitW : ℕ → Except Unit ℕ :=
  fun n => if n = 1 then .error () else .ok n

/-- A float-parsing oracle for the concrete BigQUIC output file used in
the parsing witness. -/
def floatW : List Char → Option ℚ :=
  fun s => if s = "7".toList then some 7 else none

/-- A concrete two-line BigQUIC output file: header p: 2, nnz: 1, then a
single entry line. -/
def linesW : List (List Char) := ["p: 2, nnz: 1".toList, "1 2 7".toList]

/-- A ParamSpec with a single dict-valued entry whose inner keys have
three and one candidate values: the code builds one concatenated axis of
four points from it, while the spec's one-axis-per-inner-key reading
predicts three grid points. -/
def exPS : ParamSpec ℤ :=
  [("g", PEntry.nested [("alpha", [1, 2, 3]), ("tol", [7])])]

/-- A ParamSpec where a dict-swept inner key collides with a constant
entry of the same name, to exhibit the constant winning the merge. -/
def C8ps : ParamSpec ℤ :=
  [("g", PEntry.nested [("alpha", [1, 2])]), ("alpha", PEntry.const 9)]

/-- A trivial _train oracle for the zero-swept-axes witness. -/
def trainW0 : Dict (Option ℤ) → Option ℤ × Option Unit := fun _ => (none, none)

/-- A trivial score oracle for the zero-swept-axes witness. -/
def scoreW0 : Option ℤ → Score := fun _ => none

/-- Assigning a key makes lookup of that key return the assigned value. -/
theorem dget_dset_self {V : Type} (d : Dict V) (k : String) (v : V) :
    dget (dset d k v) k = some v := by
  induction d with
  | nil => simp [dset, dget]
  | cons kv rest ih =>
    obtain ⟨k', v'⟩ := kv
    by_cases h : k' = k
    · simp [dset, dget, h]
    · simp [dset, dget, h, ih]

/-- Assigning one key leaves lookup of any other key unchanged. -/
theorem dget_dset_ne {V : Type} (d : Dict V) (k' k : String) (v : V)
    (h : k' ≠ k) : dget (dset d k' v) k = dget d k := by
  induction d with
  | nil => simp [dset, dget, h]
  | cons kv rest ih =>
    obtain ⟨k0, v0⟩ := kv
    by_cases h0 : k0 = k'
    · subst h0
      simp [dset, dget, h]
    · simp [dset, dget, h0, ih]

/-- The keys of a dict starting with one pair. -/
theorem keys_cons {V : Type} (k : String) (v : V) (d : Dict V) :
    keys ((k, v) :: d) = k :: keys d := rfl

/-- Assigning a key absent from a dict appends the pair at the end. -/
theorem dset_not_mem {V : Type} (d : Dict V) (k : String) (v : V)
    (h : k ∉ keys d) : dset d k v = d ++ [(k, v)] := by
  induction d with
  | nil => simp [dset]
  | cons kv rest ih =>
    obtain ⟨k0, v0⟩ := kv
    rw [keys_cons] at h
    simp only [List.mem_cons, not_or] at h
    have h1 : ¬k0 = k := fun hh => h.1 hh.symm
    simp [dset, h1, ih h.2]

/-- The key set after an assignment: unchanged if the key was present,
the key appended otherwise. -/
theorem keys_dset {V : Type} (d : Dict V) (k : String) (v : V) :
    keys (dset d k v) = if k ∈ keys d then keys d else keys d ++ [k] := by
  induction d with
  | nil => simp [dset, keys]
  | cons kv rest ih =>
    obtain ⟨k0, v0⟩ := kv
    by_cases h : k0 = k
    · subst h
      simp [dset, keys_cons]
    · have hne : ¬k = k0 := fun hh => h hh.symm
      simp only [dset, if_neg h, keys_cons, ih]
      by_cases hm : k ∈ keys rest
      · simp [hm, hne]
      · simp [hm, hne]

/-- Assignment preserves key uniqueness. -/
theorem nodup_keys_dset {V : Type} (d : Dict V) (k : String) (v : V)
    (h : (keys d).Nodup) : (keys (dset d k v)).Nodup := by
  rw [keys_dset]
  by_cases hm : k ∈ keys d
  · simpa [hm] using h
  · rw [if_neg hm]
    refine List.Nodup.append h (List.nodup_singleton k) ?_
    intro a ha hak
    rw [List.mem_singleton] at hak
    exact hm (hak ▸ ha)

/-- Any dict built by folding assignments from a dict with unique keys
keeps unique keys; const_params is built that way from the empty dict. -/
theorem constParams_nodup_keys {V : Type} (ps : ParamSpec V) :
    (keys (constParams ps)).Nodup := by
  suffices h : ∀ (l : ParamSpec V) (d : Dict V), (keys d).Nodup →
      (keys (l.foldl (fun d ke =>
        match ke.2 with
        | .const v => dset d ke.1 v
        | _ => d) d)).Nodup by
    exact h ps [] (by simp [keys])
  intro l
  induction l with
  | nil => intro d hd; simpa using hd
  | cons ke rest ih =>
    intro d hd
    obtain ⟨k0, e0⟩ := ke
    cases e0 with
    | const v => exact ih _ (nodup_keys_dset d k0 v hd)
    | axis vs => exact ih _ hd
    | nested sub => exact ih _ hd

/-- Folding assignments for keys all different from k does not change the
lookup of k. -/
theorem foldl_dset_not_mem {V W : Type} (f : V → W) (cs : List (String × V))
    (d : Dict W) (k : String) (h : ∀ kv ∈ cs, kv.1 ≠ k) :
    dget (cs.foldl (fun d kv => dset d kv.1 (f kv.2)) d) k = dget d k := by
  induction cs generalizing d with
  | nil => rfl
  | cons kv rest ih =>
    obtain ⟨k0, v0⟩ := kv
    have hk0 : k0 ≠ k := h (k0, v0) (by simp)
    simp only [List.foldl_cons]
    rw [ih _ (fun kv hkv => h kv (by simp [hkv])), dget_dset_ne _ _ _ _ hk0]

/-- Folding the assignments of a unique-keyed dict cs into any dict makes
every key of cs look up to its cs value. -/
theorem foldl_dset_dget {V W : Type} (f : V → W) (cs : List (String × V))
    (d : Dict W) (k : String) (v : V) (hnd : (keys cs).Nodup)
    (hv : dget cs k = some v) :
    dget (cs.foldl (fun d kv => dset d kv.1 (f kv.2)) d) k = some (f v) := by
  induction cs generalizing d with
  | nil => simp [dget] at hv
  | cons kv rest ih =>
    obtain ⟨k0, v0⟩ := kv
    rw [keys_cons, List.nodup_cons] at hnd
    by_cases h : k0 = k
    · subst h
      simp only [dget, if_pos rfl, if_true, Option.some.injEq] at hv
      subst hv
      simp only [List.foldl_cons]
      rw [foldl_dset_not_mem f rest _ k0
        (fun kv hkv hk => hnd.1 (hk ▸ (List.mem_map.mpr ⟨kv, hkv, rfl⟩)))]
      exact dget_dset_self _ _ _
    · simp only [dget, if_neg h] at hv
      simp only [List.foldl_cons]
      exact ih (dset d k0 (f v0)) hnd.2 hv

/-- Length of the product helper: each head element contributes one copy
of every tail combination. -/
theorem prodAux_length {α : Type} (xs : List α) (ts : List (List α)) :
    (prodAux xs ts).length = xs.length * ts.length := by
  induction xs with
  | nil => simp [prodAux]
  | cons x xs ih => simp [prodAux, ih, Nat.succ_mul, Nat.add_comm]

/-- The Cartesian product of a list of axes has the product of the axis
lengths as its length. -/
theorem listProd_length {α : Type} (ls : List (List α)) :
    (listProd ls).length = (ls.map List.length).prod := by
  induction ls with
  | nil => simp [listProd]
  | cons xs rest ih => simp [listProd, prodAux_length, ih]

/-- The concatenated axis of a dict entry has the sum of the inner list
lengths as its length. -/
theorem concatPairs_length {V : Type} (sub : List (String × List V)) :
    (concatPairs sub).length = (sub.map fun kv => kv.2.length).sum := by
  induction sub with
  | nil => simp [concatPairs]
  | cons kv rest ih =>
    obtain ⟨k, vs⟩ := kv
    simp [concatPairs, ih]

/-- The lengths of the search axes are exactly the axis sizes of the
non-constant entries, in order. -/
theorem searchParams_map_length {V : Type} (ps : ParamSpec V) :
    (searchParams ps).map List.length = ps.filterMap fun ke => axisSize ke.2 := by
  induction ps with
  | nil => rfl
  | cons ke rest ih =>
    obtain ⟨k, e⟩ := ke
    cases e with
    | const v => simpa [searchParams, List.filterMap_cons, axisOf, axisSize]
        using ih
    | axis vs => simpa [searchParams, List.filterMap_cons, axisOf, axisSize]
        using ih
    | nested sub =>
      simpa [searchParams, List.filterMap_cons, axisOf, axisSize,
        concatPairs_length] using ih

/-- A ParamSpec whose entries are all constants contributes no axis. -/
theorem searchParams_all_const {V : Type} (ps : ParamSpec V)
    (h : ∀ ke ∈ ps, isConstEntry ke.2 = true) : searchParams ps = [] := by
  induction ps with
  | nil => rfl
  | cons ke rest ih =>
    obtain ⟨k, e⟩ := ke
    cases e with
    | const v =>
      simpa [searchParams, List.filterMap_cons, axisOf]
        using ih fun kv hkv => h kv (by simp [hkv])
    | axis vs => simpa [isConstEntry] using h (k, .axis vs) (by simp)
    | nested sub => simpa [isConstEntry] using h (k, .nested sub) (by simp)

/-- If some segment's fit raises, the whole try/except loop yields None. -/
theorem tryFitLoop_fail {σ ε κ : Type} (fit : σ → Except ε κ) (data : List σ)
    (h : ∃ x ∈ data, ∃ e, fit x = .error e) : tryFitLoop fit data = none := by
  induction data with
  | nil => simp at h
  | cons y ys ih =>
    obtain ⟨x, hx, e, he⟩ := h
    rw [List.mem_cons] at hx
    cases hx with
    | inl hxy =>
      subst hxy
      simp [tryFitLoop, he]
    | inr hxs =>
      have hys := ih ⟨x, hxs, e, he⟩
      cases hy : fit y with
      | error e' => simp [tryFitLoop, hy]
      | ok c => simp [tryFitLoop, hy, hys]

/-- A successful try/except loop covers every segment, never a prefix. -/
theorem tryFitLoop_length {σ ε κ : Type} (fit : σ → Except ε κ)
    (data : List σ) (cs : List κ) (h : tryFitLoop fit data = some cs) :
    cs.length = data.length := by
  induction data generalizing cs with
  | nil =>
    simp only [tryFitLoop, Option.some.injEq] at h
    simp [← h]
  | cons y ys ih =>
    simp only [tryFitLoop] at h
    cases hy : fit y with
    | error e => rw [hy] at h; exact absurd h (by simp)
    | ok c =>
      rw [hy] at h
      cases hys : tryFitLoop fit ys with
      | none => rw [hys] at h; exact absurd h (by simp)
      | some cs' =>
        rw [hys] at h
        simp only [Option.some.injEq] at h
        subst h
        simp [ih cs' hys]

/-- The per-segment QUIC loop on all-successful segments: it returns
normally, the input file has been written, the output file exists, and
neither the script flag nor the working directory has changed. -/
theorem quicSegLoopAllOk (segs : List Bool) (st : FSState)
    (h : ∀ b ∈ segs, b = true) :
    QUIC.segLoop st segs =
      .ok ⟨st.cwd, st.hasIn || !segs.isEmpty, st.hasOut || !segs.isEmpty,
        st.hasScript⟩ := by
  induction segs generalizing st with
  | nil => simp [QUIC.segLoop]
  | cons b bs ih =>
    have hb : b = true := h b (by simp)
    subst hb
    have hred : QUIC.segLoop st (true :: bs) =
        QUIC.segLoop { st with hasIn := true, hasOut := true } bs := rfl
    rw [hred, ih _ (fun b hb => h b (by simp [hb]))]
    simp

/-- The per-segment BigQUIC loop on all-successful segments: it returns
normally with the input, output and script files all present and the
working directory unchanged. -/
theorem bigquicSegLoopAllOk (segs : List Bool) (st : FSState)
    (h : ∀ b ∈ segs, b = true) :
    BigQUIC.segLoop st segs =
      .ok ⟨st.cwd, st.hasIn || !segs.isEmpty, st.hasOut || !segs.isEmpty,
        st.hasScript || !segs.isEmpty⟩ := by
  induction segs generalizing st with
  | nil => simp [BigQUIC.segLoop]
  | cons b bs ih =>
    have hb : b = true := h b (by simp)
    subst hb
    have hred : BigQUIC.segLoop st (true :: bs) =
        BigQUIC.segLoop
          { st with hasIn := true, hasScript := true, hasOut := true } bs := rfl
    rw [hred, ih _ (fun b hb => h b (by simp [hb]))]
    simp

/-- Reading n entry lines yields exactly n triples on success. -/
theorem readEntries_length (floatOf : List Char → Option ℚ)
    (lines : List (List Char)) (n i : ℕ) (ts : List Triple)
    (h : readEntries floatOf lines i n = some ts) : ts.length = n := by
  induction n generalizing i ts with
  | zero =>
    simp only [readEntries, Option.some.injEq] at h
    simp [← h]
  | succ m ih =>
    simp only [readEntries] at h
    cases ht : parseTriple floatOf (readline lines i) with
    | none => rw [ht] at h; exact absurd h (by simp)
    | some t =>
      rw [ht] at h
      cases hrest : readEntries floatOf lines (i + 1) m with
      | none => rw [hrest] at h; exact absurd h (by simp)
      | some ts' =>
        rw [hrest] at h
        simp only [Option.some.injEq] at h
        subst h
        simp [ih (i + 1) ts' hrest]

/-- Folding the entry writes over any starting matrix leaves every
position unlisted among the (1-indexed) entries unchanged. -/
theorem assemble_foldl_unlisted (ts : List Triple) (m : ℤ → ℤ → ℚ)
    (i j : ℤ) (h : ∀ t ∈ ts, ¬(t.1 = i + 1 ∧ t.2.1 = j + 1)) :
    ts.foldl (fun m t => matSet m (t.1 - 1) (t.2.1 - 1) t.2.2) m i j = m i j := by
  induction ts generalizing m with
  | nil => rfl
  | cons t rest ih =>
    simp only [List.foldl_cons]
    rw [ih _ (fun t' ht' => h t' (by simp [ht']))]
    have hne : ¬(i = t.1 - 1 ∧ j = t.2.1 - 1) := by
      have := h t (by simp)
      omega
    simp [matSet, hne]

/-- C1 (amended): in Baseline.select a candidate replaces the current
best exactly when best_params is still None (the first candidate), or its
score is not NaN and the IEEE comparison score < best_score holds; every
comparison against NaN is false, so once a NaN-scoring first candidate is
retained no later candidate ever replaces it, and for the score sequence
NaN, 5.0, 3.0, NaN, 4.0 the retained best after each step is NaN, NaN,
NaN, NaN, NaN; a NaN-scoring candidate never replaces any retained best
unless it is the very first. -/
theorem select_tiebreak_rule :
    (∀ (V C M : Type) (train : Dict (Option V) → Option C × Option M)
        (score : Option C → Score) (consts : Dict V) (st : SelState V C M)
        (cur : List (String × Option V)), st.best_params = none →
        selectStep train score consts st cur =
          ⟨score (train (mergeParams cur consts)).1,
           some (mergeParams cur consts),
           (train (mergeParams cur consts)).1,
           (train (mergeParams cur consts)).2, st.calls + 1⟩) ∧
    (∀ (V C M : Type) (train : Dict (Option V) → Option C × Option M)
        (score : Option C → Score) (consts : Dict V) (st : SelState V C M)
        (cur : List (String × Option V)), st.best_params ≠ none →
        ltScore (score (train (mergeParams cur consts)).1) st.best_score = true →
        selectStep train score consts st cur =
          ⟨score (train (mergeParams cur consts)).1,
           some (mergeParams cur consts),
           (train (mergeParams cur consts)).1,
           (train (mergeParams cur consts)).2, st.calls + 1⟩) ∧
    (∀ (V C M : Type) (train : Dict (Option V) → Option C × Option M)
        (score : Option C → Score) (consts : Dict V) (st : SelState V C M)
        (cur : List (String × Option V)), st.best_params ≠ none →
        ltScore (score (train (mergeParams cur consts)).1) st.best_score = false →
        selectStep train score consts st cur = { st with calls := st.calls + 1 }) ∧
    (∀ (V C M : Type) (train : Dict (Option V) → Option C × Option M)
        (score : Option C → Score) (consts : Dict V) (st : SelState V C M)
        (cur : List (String × Option V)), st.best_params ≠ none →
        isnan (score (train (mergeParams cur consts)).1) = true →
        selectStep train score consts st cur = { st with calls := st.calls + 1 }) ∧
    (List.range 5).map (fun n =>
      (((grid C1ps).take (n + 1)).foldl
        (selectStep C1train C1score (constParams C1ps)) selectInit).best_score)
      = [none, none, none, none, none] := by
  refine ⟨?_, ?_, ?_, ?_, by decide⟩
  · intro V C M train score consts st cur h
    simp [selectStep, h]
  · intro V C M train score consts st cur h1 h2
    cases hb : st.best_params with
    | none => exact absurd hb h1
    | some p =>
      cases hcs : score (train (mergeParams cur consts)).1 with
      | none => rw [hcs] at h2; simp [ltScore] at h2
      | some a =>
        rw [hcs] at h2
        simp [selectStep, hb, hcs, isnan, h2]
  · intro V C M train score consts st cur h1 h2
    cases hb : st.best_params with
    | none => exact absurd hb h1
    | some p => simp [selectStep, hb, h2]
  · intro V C M train score consts st cur h1 h2
    cases hb : st.best_params with
    | none => exact absurd hb h1
    | some p =>
      simp only [isnan, Option.isNone_iff_eq_none] at h2
      simp [selectStep, hb, h2, ltScore]

/-- C1 counterexample: for the score sequence NaN, 5.0, 3.0, NaN, 4.0 the
claim says the retained best after the second candidate is 5.0; in the
code it is still NaN, because the comparison 5.0 < NaN is false. -/
theorem select_tiebreak_rule_cex :
    (((grid C1ps).take 2).foldl
      (selectStep C1train C1score (constParams C1ps)) selectInit).best_score
      = none ∧ (none : Score) ≠ some 5 := by decide

/-- C1 witness: at a concrete non-initial state and a concrete NaN-scoring
candidate, selectStep keeps the retained best. -/
theorem select_tiebreak_rule_witness :
    (⟨some 7, some [], some 0, some (), 3⟩ : SelState ℤ ℤ Unit).best_params
      ≠ none ∧
    isnan (C1score (C1train (mergeParams [("k", some 0)] [])).1) = true ∧
    selectStep C1train C1score []
      (⟨some 7, some [], some 0, some (), 3⟩ : SelState ℤ ℤ Unit)
      [("k", some 0)] =
      (⟨some 7, some [], some 0, some (), 4⟩ : SelState ℤ ℤ Unit) :=
  ⟨by decide, by decide,
   select_tiebreak_rule.2.2.2.1 ℤ ℤ Unit C1train C1score []
     ⟨some 7, some [], some 0, some (), 3⟩ [("k", some 0)]
     (by decide) (by decide)⟩

/-- C2 (amended): the number of grid points Baseline.select enumerates is
the product of the axis sizes, where a list-valued entry contributes an
axis of its length and a dict-valued entry contributes ONE axis whose size
is the SUM of its inner list lengths (each grid point binds exactly one
inner key of that entry), with 1 grid point when no axis exists; constant
entries contribute nothing. -/
theorem grid_axes_size {V : Type} (ps : ParamSpec V) :
    (grid ps).length = gridSize ps := by
  unfold grid gridSize searchParamsFull
  by_cases h : (searchParams ps).isEmpty
  · have h0 : searchParams ps = [] := by simpa using h
    have h2 : (ps.filterMap fun ke => axisSize ke.2) = [] := by
      rw [← searchParams_map_length, h0]; rfl
    simp [h, h2, listProd, prodAux]
  · have h0 : searchParams ps ≠ [] := by simpa using h
    have h2 : (ps.filterMap fun ke => axisSize ke.2) ≠ [] := by
      rw [← searchParams_map_length]
      simpa using h0
    rw [if_neg (by simpa using h0), if_neg (by simpa using h2),
      listProd_length, searchParams_map_length]

/-- C2 counterexample: for a dict-valued entry with inner lists of sizes
3 and 1, the spec's one-axis-per-inner-key reading predicts 3 x 1 = 3 grid
points, but the code builds one concatenated 4-point axis in which each
grid point binds only one of the two inner keys. -/
theorem grid_axes_size_cex :
    specGridSize exPS = 3 ∧ (grid exPS).length = 4 ∧
    grid exPS = [[("alpha", some 1)], [("alpha", some 2)], [("alpha", some 3)],
      [("tol", some 7)]] ∧ (3 : ℕ) ≠ 4 := by decide

/-- C6: for a ParamSpec whose entries are all constants, the dummy axis
makes the grid a single point and the selection loop invokes _train
exactly once. -/
theorem zero_axes_single_point (V C M : Type)
    (train : Dict (Option V) → Option C × Option M) (score : Option C → Score)
    (ps : ParamSpec V) (h : ∀ ke ∈ ps, isConstEntry ke.2 = true) :
    grid ps = [[("__dummy__", (none : Option V))]] ∧
    (selectRun train score ps).calls = 1 := by
  have h0 := searchParams_all_const ps h
  have hg : grid ps = [[("__dummy__", (none : Option V))]] := by
    simp [grid, searchParamsFull, h0, listProd, prodAux]
  refine ⟨hg, ?_⟩
  rw [selectRun, hg]
  simp [selectStep, selectInit]

/-- C6 witness: a one-constant ParamSpec yields the one-point dummy grid
and a single _train invocation. -/
theorem zero_axes_single_point_witness :
    (∀ ke ∈ [("a", PEntry.const (3 : ℤ))], isConstEntry ke.2 = true) ∧
    grid [("a", PEntry.const (3 : ℤ))] = [[("__dummy__", (none : Option ℤ))]] ∧
    (selectRun trainW0 scoreW0 [("a", PEntry.const (3 : ℤ))]).calls = 1 :=
  ⟨by decide,
   (zero_axes_single_point ℤ ℤ Unit trainW0 scoreW0 _ (by decide)).1,
   (zero_axes_single_point ℤ ℤ Unit trainW0 scoreW0 _ (by decide)).2⟩

/-- C8: merging a grid point with the constant parameters writes the
constants last, so on any key collision the constant entry's value wins;
and a constant entry never changes the grid. -/
theorem constants_win_merge :
    (∀ (V : Type) (ps : ParamSpec V) (gp : List (String × Option V))
        (k : String) (v : V), dget (constParams ps) k = some v →
        dget (mergeParams gp (constParams ps)) k = some (some v)) ∧
    (∀ (V : Type) (ps₁ ps₂ : ParamSpec V) (k : String) (v : V),
        grid (ps₁ ++ (k, PEntry.const v) :: ps₂) = grid (ps₁ ++ ps₂)) := by
  constructor
  · intro V ps gp k v hv
    exact foldl_dset_dget some (constParams ps) (dictOfPairs gp) k v
      (constParams_nodup_keys ps) hv
  · intro V ps₁ ps₂ k v
    have hs : searchParams (ps₁ ++ (k, PEntry.const v) :: ps₂)
        = searchParams (ps₁ ++ ps₂) := by
      simp [searchParams, List.filterMap_append, List.filterMap_cons, axisOf]
    simp only [grid, searchParamsFull, hs]

/-- C8 witness: a swept inner key alpha colliding with a constant entry
alpha = 9 looks up to the constant in the merged params. -/
theorem constants_win_merge_witness :
    dget (constParams C8ps) "alpha" = some 9 ∧
    dget (mergeParams [("alpha", some 1)] (constParams C8ps)) "alpha"
      = some (some 9) :=
  ⟨by decide,
   constants_win_merge.1 ℤ C8ps [("alpha", some 1)] "alpha" 9 (by decide)⟩

/-- C3 (amended): QUIC._train and BigQUIC._train delete the three run-id
temporary files and restore the working directory on the normal exit path
(at least one segment, every segment's output parsed successfully); on an
exit path where parsing raises, no cleanup runs at all: the claim that
cleanup happens on every exit path fails. -/
theorem external_cleanup (cwd0 : List String) (segs : List Bool)
    (hne : segs ≠ []) (hall : ∀ b ∈ segs, b = true) :
    QUIC.train cwd0 segs = .ok ⟨cwd0, false, false, false⟩ ∧
    BigQUIC.train cwd0 segs = .ok ⟨cwd0, false, false, false⟩ := by
  have hie : segs.isEmpty = false := by
    cases segs with
    | nil => exact absurd rfl hne
    | cons b bs => rfl
  constructor
  · have hloop := quicSegLoopAllOk segs
      ⟨cwd0 ++ ["experiments", "methods", "QUIC"], false, false, true⟩ hall
    simp only [hie, Bool.not_false, Bool.or_true, Bool.false_or] at hloop
    have hred : QUIC.train cwd0 segs =
        match QUIC.segLoop
          ⟨cwd0 ++ ["experiments", "methods", "QUIC"], false, false, true⟩ segs with
        | .error e => .error e
        | .ok st1 => cleanupPhase st1 3 := rfl
    rw [hred, hloop]
    show cleanupPhase
      ⟨cwd0 ++ ["experiments", "methods", "QUIC"], true, true, true⟩ 3 = _
    show Except.ok
      (chdirUp ⟨cwd0 ++ ["experiments", "methods", "QUIC"], false, false, false⟩ 3)
      = _
    simp [chdirUp, List.length_append, List.take_left]
  · have hloop := bigquicSegLoopAllOk segs
      ⟨cwd0 ++ ["experiments", "methods", "BigQUIC", "bigquic"],
        false, false, false⟩ hall
    simp only [hie, Bool.not_false, Bool.or_true, Bool.false_or] at hloop
    have hred : BigQUIC.train cwd0 segs =
        match BigQUIC.segLoop
          ⟨cwd0 ++ ["experiments", "methods", "BigQUIC", "bigquic"],
            false, false, false⟩ segs with
        | .error e => .error e
        | .ok st1 => cleanupPhase st1 4 := rfl
    rw [hred, hloop]
    show cleanupPhase
      ⟨cwd0 ++ ["experiments", "methods", "BigQUIC", "bigquic"],
        true, true, true⟩ 4 = _
    show Except.ok (chdirUp
      ⟨cwd0 ++ ["experiments", "methods", "BigQUIC", "bigquic"],
        false, false, false⟩ 4) = _
    simp [chdirUp, List.length_append, List.take_left]

/-- C3 counterexample: when the single segment's output parsing raises,
QUIC._train exits by exception with the input and script files still on
disk and the working directory still inside the solver directory, so the
claimed every-exit-path cleanup is false. -/
theorem external_cleanup_cex :
    QUIC.train ["r"] [false] =
      .error ⟨["r", "experiments", "methods", "QUIC"], true, false, true⟩ ∧
    (["r", "experiments", "methods", "QUIC"] : List String) ≠ ["r"] :=
  ⟨rfl, by decide⟩

/-- C3 witness: one all-successful segment cleans up and restores the
working directory in both adapters. -/
theorem external_cleanup_witness :
    ([true] : List Bool) ≠ [] ∧
    QUIC.train ["r"] [true] = .ok ⟨["r"], false, false, false⟩ ∧
    BigQUIC.train ["r"] [true] = .ok ⟨["r"], false, false, false⟩ :=
  ⟨by decide,
   (external_cleanup ["r"] [true] (by decide) (by decide)).1,
   (external_cleanup ["r"] [true] (by decide) (by decide)).2⟩

/-- C4: in every per-segment in-process adapter that catches failures,
one failing segment makes the whole call return (None, None), and a
successful call always covers every segment, never a prefix. -/
theorem per_segment_failure_none (σ ε κ : Type) (fit : σ → Except ε κ)
    (data : List σ) :
    ((∃ x ∈ data, ∃ e, fit x = .error e) →
      PCA.train fit data = (none, none) ∧
      SparsePCA.train fit data = (none, none) ∧
      FactorAnalysis.train fit data = (none, none) ∧
      GraphLasso.train fit data = (none, none)) ∧
    (∀ cs, (PCA.train fit data).1 = some cs → cs.length = data.length) ∧
    (∀ cs, (SparsePCA.train fit data).1 = some cs → cs.length = data.length) ∧
    (∀ cs, (FactorAnalysis.train fit data).1 = some cs →
      cs.length = data.length) ∧
    (∀ cs, (GraphLasso.train fit data).1 = some cs → cs.length = data.length) := by
  have hl := tryFitLoop_length fit data
  refine ⟨fun h => ?_, fun cs h => hl cs h, fun cs h => hl cs h,
    fun cs h => hl cs h, fun cs h => hl cs h⟩
  have hf := tryFitLoop_fail fit data h
  simp [PCA.train, SparsePCA.train, FactorAnalysis.train, GraphLasso.train, hf]

/-- C4 witness: with a fit oracle failing on segment 1 of three segments,
the PCA-shaped adapter returns (None, None). -/
theorem per_segment_failure_none_witness :
    (∃ x ∈ [0, 1, 2], ∃ e : Unit, fitW x = .error e) ∧
    PCA.train fitW [0, 1, 2] = (none, none) ∧
    GraphLasso.train fitW [0, 1, 2] = (none, none) :=
  ⟨⟨1, by decide, (), rfl⟩,
   ((per_segment_failure_none ℕ Unit ℕ fitW [0, 1, 2]).1 ⟨1, by decide, (), rfl⟩).1,
   ((per_segment_failure_none ℕ Unit ℕ fitW [0, 1, 2]).1
     ⟨1, by decide, (), rfl⟩).2.2.2⟩

/-- C5: on a freshly constructed Baseline, evaluate and get_covariance
fail the _trained assertion; after select completes they both succeed,
returning values derived from the selection result. -/
theorem facade_precondition (V C M : Type) (scf : Option C → Score)
    (train : Dict (Option V) → Option C × Option M) (score : Option C → Score)
    (ps : ParamSpec V) :
    Baseline.evaluate scf (Baseline.init : BaselineState V C M) = .error () ∧
    Baseline.get_covariance (Baseline.init : BaselineState V C M)
      = .error () ∧
    (Baseline.select train score ps Baseline.init).1.trained = true ∧
    Baseline.evaluate scf (Baseline.select train score ps Baseline.init).1 =
      .ok (scf (selectRun train score ps).best_covs) ∧
    Baseline.get_covariance (Baseline.select train score ps Baseline.init).1 =
      .ok ((selectRun train score ps).best_covs) :=
  ⟨rfl, rfl, rfl, rfl, rfl⟩

/-- C7: when BigQUIC._train's output parsing succeeds, the header's p
equals the expected variable count, the header was found in the first
line, exactly nnz entry lines were read, and the assembled dense precision
matrix is zero at every position not listed among the 1-indexed entries. -/
theorem bigquic_parse_shape (floatOf : List Char → Option ℚ) (nv : ℕ)
    (lines : List (List Char)) (p nnz : ℕ) (ts : List Triple)
    (h : BigQUIC.parseOut floatOf nv lines = some (p, nnz, ts)) :
    p = nv ∧ headerSearch (readline lines 0) = some (p, nnz) ∧
    ts.length = nnz ∧
    ∀ i j : ℤ, (∀ t ∈ ts, ¬(t.1 = i + 1 ∧ t.2.1 = j + 1)) →
      assemble ts i j = 0 := by
  unfold BigQUIC.parseOut at h
  split at h
  · exact absurd h (by simp)
  · rename_i pr p' nnz' hh
    split at h
    · rename_i hp
      split at h
      · exact absurd h (by simp)
      · rename_i ts' hr
        simp only [Option.some.injEq, Prod.mk.injEq] at h
        obtain ⟨hp1, hrest⟩ := h
        obtain ⟨hn1, ht1⟩ := hrest
        refine ⟨hp1 ▸ hp, ?_, ?_, ?_⟩
        · rw [← hp1, ← hn1]
          exact hh
        · rw [← hn1, ← ht1]
          exact readEntries_length floatOf lines nnz' 1 ts' hr
        · intro i j hij
          rw [← ht1] at hij ⊢
          exact assemble_foldl_unlisted ts' _ i j hij
    · exact absurd h (by simp)

/-- C7 witness: a concrete two-line output file with p = 2, nnz = 1 and
one entry at row 1, col 2 parses to that single triple, and the assembled
matrix is zero at the unlisted position (0, 0). -/
theorem bigquic_parse_shape_witness :
    BigQUIC.parseOut floatW 2 linesW = some (2, 1, [(1, 2, (7 : ℚ))]) ∧
    assemble [(1, 2, (7 : ℚ))] 0 0 = 0 :=
  ⟨by decide,
   (bigquic_parse_shape floatW 2 linesW 2 1 [(1, 2, (7 : ℚ))]
     (by decide)).2.2.2 0 0 (by decide)⟩

/-- C9 (amended): Baseline.select only reads the caller's params mapping
and writes into fresh dicts, but TCorex._train and TCorex.timeit write the
key nt (the number of segments) directly into the caller-supplied mapping,
adding the key at the end when it was absent. -/
theorem tcorex_params_mutation (V : Type) (n : V) (p : Dict V) :
    dget (TCorex.train n p) "nt" = some n ∧
    dget (TCorex.timeit n p) "nt" = some n ∧
    ("nt" ∉ keys p → TCorex.timeit n p = p ++ [("nt", n)]) :=
  ⟨dget_dset_self p "nt" n, dget_dset_self p "nt" n,
   fun h => dset_not_mem p "nt" n h⟩

/-- C9 counterexample: a caller params mapping without an nt key is no
longer equal to itself after TCorex.timeit, so the claim that every
timeit call leaves the caller's mapping unchanged is false. -/
theorem tcorex_params_mutation_cex :
    TCorex.timeit (3 : ℤ) [("max_iter", (5 : ℤ))]
      = [("max_iter", 5), ("nt", 3)] ∧
    ([("max_iter", (5 : ℤ)), ("nt", 3)] : Dict ℤ) ≠ [("max_iter", 5)] := by
  decide

/-- C9 witness: at a concrete mapping without an nt key, timeit appends
the pair and the lookup of nt yields the segment count. -/
theorem tcorex_params_mutation_witness :
    ("nt" ∉ keys [("a", (1 : ℤ))]) ∧
    TCorex.timeit (2 : ℤ) [("a", 1)] = [("a", 1), ("nt", 2)] ∧
    dget (TCorex.timeit (2 : ℤ) [("a", 1)]) "nt" = some 2 :=
  ⟨by decide,
   (tcorex_params_mutation ℤ 2 [("a", 1)]).2.2 (by decide),
   (tcorex_params_mutation ℤ 2 [("a", 1)]).2.1⟩

/-- C10: a GroundTruth instance is trained from construction: evaluate
and get_covariance succeed without any select call, get_covariance returns
exactly the constructor's covariance set, and GroundTruth._train ignores
its arguments, returning that stored set with a None model. -/
theorem groundtruth_trained (V C M τ : Type) (covs : C)
    (scf : Option C → Score) (td : τ) (pr : Dict (Option V)) :
    Baseline.evaluate scf (@GroundTruth.init V C M covs)
      = .ok (scf (some covs)) ∧
    Baseline.get_covariance (@GroundTruth.init V C M covs)
      = .ok (some covs) ∧
    GroundTruth.train (@GroundTruth.init V C M covs) td pr
      = (some covs, none) :=
  ⟨rfl, rfl, rfl⟩

end Baselines
